import Mathlib

/-!
Shallow embedding of the Kademlia DHT dispatcher of
`src/protocol/kademlia/impl/kademlia_impl.cpp` (class `KademliaImpl`).

External collaborators (the host's peer repository, the connectedness
oracle, the two routing tables, the value store, the validator) are
modelled as oracle functions carried in environment records; the code
of `KademliaImpl` itself is translated function by function.  Session
writes and address-book upserts are modelled as lists of emitted calls.
-/

namespace Kademlia

/-- Peer identifiers (`peer::PeerId`). -/
abbrev PeerId := Nat

/-- Content keys (`ContentId`, opaque bytes). -/
abbrev Key := List Nat

/-- Stored values (opaque bytes). -/
abbrev Value := List Nat

/-- One multiaddress. -/
abbrev Multiaddress := Nat

/-- 256-bit node identifiers (`NodeId`); opaque here. -/
abbrev NodeId := List Nat

/-- `Message::Connectedness` of the wire message / host oracle. -/
inductive Connectedness
  | NOT_CONNECTED
  | CONNECTED
  | CAN_CONNECT
  | CAN_NOT_CONNECT
deriving DecidableEq, Repr

/-- `peer::PeerInfo`: an id together with the known multiaddresses. -/
structure PeerInfo where
  id : PeerId
  addresses : List Multiaddress
deriving DecidableEq, Repr

/-- `Message::Peer`: a peer entry of `closer_peers` / `provider_peers`. -/
structure MessagePeer where
  info : PeerInfo
  conn_status : Connectedness
deriving DecidableEq, Repr

/-- `Message::Type`. -/
inductive MessageType
  | kPutValue
  | kGetValue
  | kAddProvider
  | kGetProviders
  | kFindNode
  | kPing
deriving DecidableEq, Repr

/-- `Message::Record`: key, value and the ASCII timestamp field. -/
structure MessageRecord where
  key : Key
  value : Value
  time_received : String
deriving DecidableEq, Repr

/-- The wire message (`Message`), optional fields as in the codec. -/
structure Message where
  type : MessageType
  key : Key
  record : Option MessageRecord := none
  closer_peers : Option (List MessagePeer) := none
  provider_peers : Option (List MessagePeer) := none
deriving DecidableEq, Repr

/-- The host facilities `KademliaImpl` consults while building replies:
`host_->getPeerRepository().getPeerInfo(p)` and `host_->connectedness(info)`. -/
structure Host where
  getPeerInfo : PeerId → PeerInfo
  connectedness : PeerInfo → Connectedness

/-- Environment of the inbound-message handlers: the host, the hash used to
map keys to node ids, the two tables (`peer_routing_table_->getNearestPeers`,
`content_routing_table_->getProvidersFor`) and `config_.closerPeerCount`. -/
structure KademliaEnv where
  host : Host
  hash : Key → NodeId
  getNearestPeers : NodeId → Nat → List PeerId
  getProvidersFor : Key → Nat → List PeerId
  closerPeerCount : Nat

/-- The reply-building loop shared by `onGetValue`, `onAddProvider` replies,
`onGetProviders` and `onFindNode`: for each id fetch the peer info, skip it
when it has no addresses, otherwise push it tagged with the host's
connectedness, and stop once `config_.closerPeerCount` entries are gathered. -/
def collectMsgPeers (host : Host) (closerPeerCount : Nat) :
    List PeerId → List MessagePeer → List MessagePeer
  | [], peers => peers
  | p :: rest, peers =>
    let info := host.getPeerInfo p
    if info.addresses.isEmpty then
      collectMsgPeers host closerPeerCount rest peers
    else
      let peers' := peers ++ [⟨info, host.connectedness info⟩]
      if closerPeerCount ≤ peers'.length then peers'
      else collectMsgPeers host closerPeerCount rest peers'

/-- The loop of `onFindNode` over the inbound `closer_peers`: every entry
whose `conn_status` differs from `CAN_NOT_CONNECT` is upserted into the
address repository (with the day TTL). -/
def upsertCloserPeers : List MessagePeer → List (PeerId × List Multiaddress)
  | [] => []
  | peer :: rest =>
    if peer.conn_status ≠ Connectedness.CAN_NOT_CONNECT then
      (peer.info.id, peer.info.addresses) :: upsertCloserPeers rest
    else upsertCloserPeers rest

/-- Observable effects of an inbound-message handler: the address-book
upserts it performed and the messages it wrote on the session. -/
structure HandlerOut where
  upserts : List (PeerId × List Multiaddress)
  writes : List Message
deriving DecidableEq, Repr

/-- `KademliaImpl::onFindNode`: drop the message when the key is empty;
merge inbound `closer_peers` that are not `CAN_NOT_CONNECT` into the address
book and clear the field; attach the nearest peers (tagged, address-less
ones skipped, capped at `closerPeerCount`) and write the message back. -/
def onFindNode (env : KademliaEnv) (msg : Message) : HandlerOut :=
  if msg.key = [] then ⟨[], []⟩
  else
    let upserts :=
      match msg.closer_peers with
      | some cps => upsertCloserPeers cps
      | none => []
    let msg1 : Message := { msg with closer_peers := none }
    let ids := env.getNearestPeers (env.hash msg1.key) (env.closerPeerCount * 2)
    let peers := collectMsgPeers env.host env.closerPeerCount ids []
    let msg2 : Message :=
      if peers.isEmpty then msg1 else { msg1 with closer_peers := some peers }
    ⟨upserts, [msg2]⟩

/-- `KademliaImpl::onGetProviders`: drop the message when the key is empty;
attach local providers as `provider_peers` and nearest peers as
`closer_peers` (both tagged, address-less ones skipped, capped at
`closerPeerCount`), leaving a field untouched when its list comes up empty;
write the message back. -/
def onGetProviders (env : KademliaEnv) (msg : Message) : HandlerOut :=
  if msg.key = [] then ⟨[], []⟩
  else
    let peer_ids := env.getProvidersFor msg.key (env.closerPeerCount * 2)
    let msg1 : Message :=
      if peer_ids.isEmpty then msg
      else
        let peers := collectMsgPeers env.host env.closerPeerCount peer_ids []
        if peers.isEmpty then msg else { msg with provider_peers := some peers }
    let peer_ids2 := env.getNearestPeers (env.hash msg1.key) (env.closerPeerCount * 2)
    let msg2 : Message :=
      if peer_ids2.isEmpty then msg1
      else
        let peers := collectMsgPeers env.host env.closerPeerCount peer_ids2 []
        if peers.isEmpty then msg1 else { msg1 with closer_peers := some peers }
    ⟨[], [msg2]⟩

/-- Peers held by an optional `closer_peers` / `provider_peers` field. -/
def optPeers (o : Option (List MessagePeer)) : List MessagePeer := o.getD []

/-- The local-providers loop of `KademliaImpl::findProviders`: for each
candidate fetch the peer info, skip it when it has no addresses or when the
host's connectedness verdict is `CAN_NOT_CONNECT`, otherwise keep it, and
stop once `limit` entries are gathered. -/
def collectProviderInfos (host : Host) (limit : Nat) :
    List PeerId → List PeerInfo → List PeerInfo
  | [], result => result
  | provider :: rest, result =>
    let peer_info := host.getPeerInfo provider
    if peer_info.addresses.isEmpty then
      collectProviderInfos host limit rest result
    else if host.connectedness peer_info = Connectedness.CAN_NOT_CONNECT then
      collectProviderInfos host limit rest result
    else
      let result' := result ++ [peer_info]
      if limit ≤ result'.length then result'
      else collectProviderInfos host limit rest result'

/-- Outcome of `KademliaImpl::findProviders`: either the handler is
scheduled with a locally assembled result and no lookup is started, or a
`FindProvidersExecutor` (network lookup) is started. -/
inductive FindProvidersOutcome
  | localOnly (result : List PeerInfo)
  | lookup
deriving DecidableEq, Repr

/-- `KademliaImpl::findProviders`: query the content routing table with
`limit`; only when the list is nonempty, `limit > 0` and the list is
strictly longer than `limit` does the local path run its filter loop, and
only when that loop gathered at least `limit` entries is the handler served
locally; in every other case a network lookup is started. -/
def findProviders (env : KademliaEnv) (key : Key) (limit : Nat) :
    FindProvidersOutcome :=
  let providers := env.getProvidersFor key limit
  if providers.isEmpty then FindProvidersOutcome.lookup
  else if 0 < limit ∧ limit < providers.length then
    let result := collectProviderInfos env.host limit providers []
    if limit ≤ result.length then FindProvidersOutcome.localOnly result
    else FindProvidersOutcome.lookup
  else FindProvidersOutcome.lookup

/-- Outcome of `KademliaImpl::getValue`: either the handler is scheduled
with the locally stored value and the call returns success, or a
`GetValueExecutor` (network lookup) is started. -/
inductive GetValueOutcome
  | localServe (value : Value)
  | lookup
deriving DecidableEq, Repr

/-- `KademliaImpl::getValue`: `store` is `storage_->getValue`, returning the
value and its expiry; `now` is `scheduler_->now()`; `hasHandler` is the
truthiness of the `FoundValueHandler`.  The value is served locally exactly
when it is present, unexpired (`now < ts`) and a handler was supplied;
otherwise the executor is started. -/
def getValue (store : Key → Option (Value × Int)) (now : Int)
    (key : Key) (hasHandler : Bool) : GetValueOutcome :=
  match store key with
  | some (value, ts) =>
    if now < ts then
      if hasHandler then GetValueOutcome.localServe value
      else GetValueOutcome.lookup
    else GetValueOutcome.lookup
  | none => GetValueOutcome.lookup

/-- Collaborators of `KademliaImpl::onPutValue`: the validator and the
value store (`storage_->putValue`), the latter state-passing over an
abstract store state `σ` and returning `none` on error. -/
structure PutValueEnv (σ : Type) where
  validate : Key → Value → Bool
  putValue : σ → Key → Value → Option σ

/-- `KademliaImpl::onPutValue`: a message without a record is dropped; a
record the validator rejects is dropped; a record the store rejects is
dropped; otherwise the value is stored and the received message is written
back on the session unmodified (the echo ack).  Returns the resulting store
state and the list of written messages. -/
def onPutValue {σ : Type} (env : PutValueEnv σ) (store : σ) (msg : Message) :
    σ × List Message :=
  match msg.record with
  | none => (store, [])
  | some record =>
    if env.validate record.key record.value then
      match env.putValue store record.key record.value with
      | some store' => (store', [msg])
      | none => (store, [])
    else (store, [])

/-- The loop of `KademliaImpl::onAddProvider` over `provider_peers`:
a provider is recorded in the content routing table and offered to
`addPeer` exactly when its peer id equals the stream's authenticated remote
peer id.  Returns the `(key, peer)` pairs recorded and the peer infos
passed to `addPeer`. -/
def onAddProviderLoop (key : Key) (remote : PeerId) :
    List MessagePeer → List (Key × PeerId) × List PeerInfo
  | [] => ([], [])
  | provider :: rest =>
    if remote = provider.info.id then
      let tail := onAddProviderLoop key remote rest
      ((key, provider.info.id) :: tail.1, provider.info :: tail.2)
    else onAddProviderLoop key remote rest

/-- `KademliaImpl::onAddProvider`: a message without `provider_peers` is
dropped; otherwise each carried provider is processed by the loop above.
`remote` is `session->stream()->remotePeerId()`, the transport-authenticated
remote peer of the stream. -/
def onAddProvider (remote : PeerId) (msg : Message) :
    List (Key × PeerId) × List PeerInfo :=
  match msg.provider_peers with
  | none => ([], [])
  | some providers => onAddProviderLoop msg.key remote providers

/-- The TTL passed to `upsertAddresses` by `addPeer`. -/
inductive Ttl
  | kPermanent
  | kDay
deriving DecidableEq, Repr

/-- A call of `AddressRepository::upsertAddresses` issued by `addPeer`. -/
structure UpsertCall where
  peer : PeerId
  addresses : List Multiaddress
  ttl : Ttl
deriving DecidableEq, Repr

/-- A call of `PeerRoutingTable::update` issued by `addPeer`. -/
structure UpdateCall where
  peer : PeerId
  permanent : Bool
  is_connected : Bool
deriving DecidableEq, Repr

/-- Collaborators of `KademliaImpl::addPeer`: whether the address-book
upsert succeeds, and the routing-table update result (`none` = error,
`some added`). -/
structure AddPeerEnv where
  upsertOk : PeerId → List Multiaddress → Ttl → Bool
  updateResult : PeerId → Bool → Bool → Option Bool

/-- `KademliaImpl::addPeer`: a peer info without addresses is skipped
before any call; otherwise the addresses are upserted into the address
repository (permanent peers with the permanent TTL, others with the day
TTL); only when the upsert succeeded is `peer_routing_table_->update`
called.  Returns the upsert calls and the update calls issued. -/
def addPeer (env : AddPeerEnv) (peer_info : PeerInfo)
    (permanent : Bool) (is_connected : Bool) :
    List UpsertCall × List UpdateCall :=
  if peer_info.addresses.isEmpty then ([], [])
  else
    let ttl := if permanent then Ttl.kPermanent else Ttl.kDay
    if env.upsertOk peer_info.id peer_info.addresses ttl then
      ([⟨peer_info.id, peer_info.addresses, ttl⟩],
       [⟨peer_info.id, permanent, is_connected⟩])
    else
      ([⟨peer_info.id, peer_info.addresses, ttl⟩], [])

/-- Outcome of `KademliaImpl::handleProtocol` on one inbound stream:
either the stream is reset at once (no session, no read), or a session is
opened on it and its read loop started. -/
inductive StreamAction
  | reset
  | openAndRead (remote : PeerId)
deriving DecidableEq, Repr

/-- `KademliaImpl::handleProtocol`: a stream whose authenticated remote
peer id equals the node's own id (`self_id_`) is reset immediately;
any other stream gets a session whose read loop is started. -/
def handleProtocol (self_id : PeerId) (remote : PeerId) : StreamAction :=
  if remote = self_id then StreamAction.reset
  else StreamAction.openAndRead remote

/-- `config_.randomWalk`: the period length, the spacing between walks and
the number of walks per period.  Durations are integers (chrono
milliseconds). -/
structure RandomWalkConfig where
  interval : Int
  delay : Int
  queries_per_period : Nat
deriving DecidableEq, Repr

/-- The delay selection of `KademliaImpl::randomWalk` at a given value of
the iteration counter (the value read before the post-increment): the long
period-end delay `interval - delay * queries_per_period` when the counter
is divisible by `queries_per_period`, the short `delay` otherwise. -/
def randomWalkDelay (cfg : RandomWalkConfig) (iteration : Nat) : Int :=
  if iteration % cfg.queries_per_period = 0 then
    cfg.interval - cfg.delay * (cfg.queries_per_period : Int)
  else cfg.delay

/-- One invocation of `KademliaImpl::randomWalk` as a transition on the
iteration counter: `auto iteration = random_walking_.iteration++` reads the
counter and increments it, and the next walk is scheduled after
`randomWalkDelay` of the value read. -/
def randomWalkStep (cfg : RandomWalkConfig) (counter : Nat) : Nat × Int :=
  (counter + 1, randomWalkDelay cfg counter)

/-- The first `n` invocations of `randomWalk`, chained through the
iteration counter from its initial value 0 (`random_walking_.iteration` is
a fresh zero-initialized member of `KademliaImpl`; the first walk runs at
counter value 0).  Returns the final counter and the scheduled delays in
order. -/
def runWalks (cfg : RandomWalkConfig) : Nat → Nat × List Int
  | 0 => (0, [])
  | n + 1 =>
    let s := runWalks cfg n
    let step := randomWalkStep cfg s.1
    (step.1, s.2 ++ [step.2])

/-- The cadence the claim describes, transcribed from its words (not from
the source): numbering invocations from the first (1-based), the scheduled
delay is `delay` except at every `queries_per_period`-th invocation, where
it is `interval - delay * queries_per_period`. -/
def claimedWalkDelay (cfg : RandomWalkConfig) (invocation : Nat) : Int :=
  if invocation % cfg.queries_per_period = 0 then
    cfg.interval - cfg.delay * (cfg.queries_per_period : Int)
  else cfg.delay

/-- Every pair recorded by the `onAddProvider` loop is `(key, remote)`, and
every peer info it offers to `addPeer` names the remote peer. -/
theorem onAddProviderLoop_sound (key : Key) (remote : PeerId) :
    ∀ providers : List MessagePeer,
      (∀ q ∈ (onAddProviderLoop key remote providers).1, q = (key, remote)) ∧
      (∀ i ∈ (onAddProviderLoop key remote providers).2, i.id = remote) := by
  intro providers
  induction providers with
  | nil => simp [onAddProviderLoop]
  | cons provider rest ih =>
    by_cases h : remote = provider.info.id
    · refine ⟨?_, ?_⟩
      · intro q hq
        simp only [onAddProviderLoop, if_pos h] at hq
        rcases List.mem_cons.mp hq with hq1 | hq1
        · simp [hq1, h]
        · exact ih.1 q hq1
      · intro i hi
        simp only [onAddProviderLoop, if_pos h] at hi
        rcases List.mem_cons.mp hi with hi1 | hi1
        · simp [hi1, h]
        · exact ih.2 i hi1
    · simpa only [onAddProviderLoop, if_neg h] using ih

/-- A carried provider naming the remote peer is recorded and offered by
the `onAddProvider` loop. -/
theorem onAddProviderLoop_complete (key : Key) (remote : PeerId) :
    ∀ providers : List MessagePeer, ∀ p ∈ providers, p.info.id = remote →
      (key, p.info.id) ∈ (onAddProviderLoop key remote providers).1 ∧
        p.info ∈ (onAddProviderLoop key remote providers).2 := by
  intro providers
  induction providers with
  | nil => simp
  | cons provider rest ih =>
    intro p hp hid
    rcases List.mem_cons.mp hp with hp | hp
    · subst hp
      simp [onAddProviderLoop, hid.symm]
    · have htail := ih p hp hid
      by_cases h : remote = provider.info.id
      · simp only [onAddProviderLoop, if_pos h]
        exact ⟨List.mem_cons_of_mem _ htail.1, List.mem_cons_of_mem _ htail.2⟩
      · simpa only [onAddProviderLoop, if_neg h] using htail

/-- Claim C3 (confirmed): an inbound PutValue carrying no record, or one
whose record the validator rejects, writes no reply on the session and
leaves the value store unchanged. -/
theorem onPutValue_rejected_drops {σ : Type} (env : PutValueEnv σ)
    (store : σ) (msg : Message)
    (h : msg.record = none ∨
      ∃ r, msg.record = some r ∧ env.validate r.key r.value = false) :
    onPutValue env store msg = (store, []) := by
  rcases h with h | ⟨r, hr, hv⟩
  · simp [onPutValue, h]
  · simp [onPutValue, hr, hv]

/-- Witness for C3: a concrete rejected PutValue is dropped. -/
theorem onPutValue_rejected_drops_witness :
    onPutValue (σ := Nat) ⟨fun _ _ => false, fun s _ _ => some (s + 1)⟩ 0
      { type := MessageType.kPutValue, key := [1],
        record := some ⟨[1], [2], "5"⟩ } = (0, []) :=
  onPutValue_rejected_drops _ _ _ (Or.inr ⟨⟨[1], [2], "5"⟩, rfl, rfl⟩)

/-- Claim C8 (confirmed): an inbound PutValue whose record the validator
accepts and the store admits is stored, and the received message — record
and its `time_received` field included — is written back verbatim on the
same session as the ack. -/
theorem onPutValue_echo_verbatim {σ : Type} (env : PutValueEnv σ)
    (store store' : σ) (msg : Message) (r : MessageRecord)
    (hrec : msg.record = some r)
    (hval : env.validate r.key r.value = true)
    (hput : env.putValue store r.key r.value = some store') :
    onPutValue env store msg = (store', [msg]) := by
  simp [onPutValue, hrec, hval, hput]

/-- Witness for C8: a concrete accepted PutValue is echoed unmodified,
keeping the sender's `time_received` string. -/
theorem onPutValue_echo_verbatim_witness :
    onPutValue (σ := Nat) ⟨fun _ _ => true, fun s _ _ => some (s + 1)⟩ 0
      { type := MessageType.kPutValue, key := [1],
        record := some ⟨[1], [2], "12345"⟩ }
      = (1, [{ type := MessageType.kPutValue, key := [1],
               record := some ⟨[1], [2], "12345"⟩ }]) :=
  onPutValue_echo_verbatim _ _ 1 _ ⟨[1], [2], "12345"⟩ rfl rfl rfl

/-- Claim C5 (confirmed): a provider entry carried by an inbound
AddProvider is recorded in the content routing table and offered to the
peer routing table exactly when its peer id equals the stream's
authenticated remote peer id. -/
theorem onAddProvider_only_remote_self (remote : PeerId) (msg : Message)
    (providers : List MessagePeer) (p : MessagePeer)
    (hps : msg.provider_peers = some providers) (hp : p ∈ providers) :
    ((msg.key, p.info.id) ∈ (onAddProvider remote msg).1 ∧
        p.info ∈ (onAddProvider remote msg).2) ↔
      p.info.id = remote := by
  unfold onAddProvider
  rw [hps]
  constructor
  · intro h
    have := (onAddProviderLoop_sound msg.key remote providers).1 _ h.1
    exact (Prod.mk.injEq _ _ _ _).mp this |>.2
  · intro h
    exact onAddProviderLoop_complete msg.key remote providers p hp h

/-- The inbound AddProvider message of the C5 witness: one provider entry
naming peer 3 with one address. -/
def msgC5 : Message :=
  { type := MessageType.kAddProvider, key := [0],
    provider_peers := some [⟨⟨3, [1]⟩, Connectedness.CONNECTED⟩] }

/-- Witness for C5: a concrete self-naming provider entry is recorded and
offered. -/
theorem onAddProvider_only_remote_self_witness :
    (([0], (3 : PeerId)) ∈ (onAddProvider 3 msgC5).1 ∧
      (⟨3, [1]⟩ : PeerInfo) ∈ (onAddProvider 3 msgC5).2) :=
  (onAddProvider_only_remote_self 3 msgC5 _ ⟨⟨3, [1]⟩, Connectedness.CONNECTED⟩
    rfl (by decide)).mpr rfl

/-- Claim C6 (confirmed): an inbound protocol stream whose authenticated
remote peer id equals the node's own id is reset immediately; no session is
opened and no read is started. -/
theorem handleProtocol_self_reset (self_id remote : PeerId)
    (h : remote = self_id) :
    handleProtocol self_id remote = StreamAction.reset := by
  simp [handleProtocol, h]

/-- Witness for C6: a concrete self-dial is reset. -/
theorem handleProtocol_self_reset_witness :
    handleProtocol 5 5 = StreamAction.reset :=
  handleProtocol_self_reset 5 5 rfl

/-- Claim C7 (confirmed): getValue serves the handler from the local value
store and starts no lookup exactly when the store holds the value, its
expiry is strictly in the future, and a handler was supplied; in every
other case a network lookup is started. -/
theorem getValue_local_serve (store : Key → Option (Value × Int)) (now : Int)
    (key : Key) (hasHandler : Bool) (v : Value) :
    getValue store now key hasHandler = GetValueOutcome.localServe v ↔
      hasHandler = true ∧ ∃ ts, store key = some (v, ts) ∧ now < ts := by
  cases hstore : store key with
  | none => simp [getValue, hstore]
  | some p =>
    obtain ⟨val, ts⟩ := p
    by_cases hnow : now < ts
    · cases hasHandler with
      | false => simp [getValue, hstore, hnow]
      | true =>
        simp only [getValue, hstore, if_pos hnow, if_true, true_and]
        constructor
        · intro h
          cases h
          exact ⟨ts, rfl, hnow⟩
        · rintro ⟨ts', hts, hlt⟩
          obtain ⟨hv, hts2⟩ :=
            Prod.mk.injEq .. |>.mp (Option.some.injEq .. |>.mp hts)
          rw [hv]
    · simp only [getValue, hstore, if_neg hnow]
      constructor
      · intro h; cases h
      · rintro ⟨hh, ts', hts, hlt⟩
        obtain ⟨hv, hts2⟩ :=
          Prod.mk.injEq .. |>.mp (Option.some.injEq .. |>.mp hts)
        exact absurd (hts2 ▸ hlt) hnow

/-- Claim C10 (confirmed): getValue with a null handler starts a network
lookup even when the local store holds a fresh value. -/
theorem getValue_null_handler_lookup (store : Key → Option (Value × Int))
    (now : Int) (key : Key) :
    getValue store now key false = GetValueOutcome.lookup := by
  cases hstore : store key with
  | none => simp [getValue, hstore]
  | some p =>
    obtain ⟨val, ts⟩ := p
    by_cases h : now < ts <;> simp [getValue, hstore, h]

/-- Claim C9 (confirmed): the peer routing table is updated only when the
peer info carries at least one address and the address-book upsert (issued
first, with the TTL chosen by permanence) succeeded. -/
theorem addPeer_update_requires_upsert (env : AddPeerEnv) (info : PeerInfo)
    (permanent is_connected : Bool)
    (h : (addPeer env info permanent is_connected).2 ≠ []) :
    info.addresses ≠ [] ∧
      env.upsertOk info.id info.addresses
        (if permanent then Ttl.kPermanent else Ttl.kDay) = true ∧
      (addPeer env info permanent is_connected).1 =
        [⟨info.id, info.addresses,
          if permanent then Ttl.kPermanent else Ttl.kDay⟩] := by
  by_cases he : info.addresses.isEmpty
  · exact absurd (by simp [addPeer, he]) h
  · by_cases hu : env.upsertOk info.id info.addresses
        (if permanent then Ttl.kPermanent else Ttl.kDay) = true
    · refine ⟨?_, hu, ?_⟩
      · simpa [List.isEmpty_iff] using he
      · simp [addPeer, he, hu]
    · exact absurd (by simp [addPeer, he, hu]) h

/-- Oracle environment of the C9 witness: upserts always succeed. -/
def envC9 : AddPeerEnv := ⟨fun _ _ _ => true, fun _ _ _ => some true⟩

/-- Witness for C9 at a concrete peer. -/
theorem addPeer_update_requires_upsert_witness :
    (⟨4, [9]⟩ : PeerInfo).addresses ≠ [] ∧
      envC9.upsertOk 4 [9] (if false then Ttl.kPermanent else Ttl.kDay) =
        true ∧
      (addPeer envC9 ⟨4, [9]⟩ false true).1 =
        [⟨4, [9], if false then Ttl.kPermanent else Ttl.kDay⟩] :=
  addPeer_update_requires_upsert envC9 ⟨4, [9]⟩ false true (by decide)

/-- Every entry produced by the reply-building loop beyond the accumulator
carries the host's connectedness verdict on its own info and a nonempty
address list. -/
theorem collectMsgPeers_mem (host : Host) (cnt : Nat) :
    ∀ (ids : List PeerId) (acc : List MessagePeer) (e : MessagePeer),
      e ∈ collectMsgPeers host cnt ids acc →
      e ∈ acc ∨
        (e.conn_status = host.connectedness e.info ∧ e.info.addresses ≠ []) := by
  intro ids
  induction ids with
  | nil =>
    intro acc e he
    exact Or.inl (by simpa [collectMsgPeers] using he)
  | cons p rest ih =>
    intro acc e he
    by_cases hinfo : (host.getPeerInfo p).addresses.isEmpty
    · have he1 : e ∈ collectMsgPeers host cnt rest acc := by
        simpa only [collectMsgPeers, if_pos hinfo] using he
      exact ih acc e he1
    · have hgood :
          e = (⟨host.getPeerInfo p,
              host.connectedness (host.getPeerInfo p)⟩ : MessagePeer) →
          e.conn_status = host.connectedness e.info ∧ e.info.addresses ≠ [] := by
        intro heq
        rw [heq]
        exact ⟨rfl, by simpa [List.isEmpty_iff] using hinfo⟩
      by_cases hcap : cnt ≤ (acc ++ [(⟨host.getPeerInfo p,
          host.connectedness (host.getPeerInfo p)⟩ : MessagePeer)]).length
      · have he1 : e ∈ acc ++ [(⟨host.getPeerInfo p,
            host.connectedness (host.getPeerInfo p)⟩ : MessagePeer)] := by
          simpa only [collectMsgPeers, if_neg hinfo, if_pos hcap] using he
        rcases List.mem_append.mp he1 with h1 | h1
        · exact Or.inl h1
        · exact Or.inr (hgood (by simpa using h1))
      · have he1 : e ∈ collectMsgPeers host cnt rest
            (acc ++ [(⟨host.getPeerInfo p,
              host.connectedness (host.getPeerInfo p)⟩ : MessagePeer)]) := by
          simpa only [collectMsgPeers, if_neg hinfo, if_neg hcap] using he
        rcases ih _ e he1 with h1 | h1
        · rcases List.mem_append.mp h1 with h2 | h2
          · exact Or.inl h2
          · exact Or.inr (hgood (by simpa using h2))
        · exact Or.inr h1

/-- The reply-building loop started on an empty accumulator only produces
oracle-tagged entries with nonempty address lists. -/
theorem collectMsgPeers_nil_mem (host : Host) (cnt : Nat) (ids : List PeerId)
    (e : MessagePeer) (he : e ∈ collectMsgPeers host cnt ids []) :
    e.conn_status = host.connectedness e.info ∧ e.info.addresses ≠ [] :=
  (collectMsgPeers_mem host cnt ids [] e he).resolve_left (by simp)

/-- Claim C1, amended: for an inbound FindNode or GetProviders request
carrying no `closer_peers` or `provider_peers` of its own, every peer in
the reply's `closer_peers` and `provider_peers` carries a connectedness tag
computed from the host's oracle and has at least one known address — but
peers tagged `CannotConnect` are NOT excluded from the reply lists (the
`CannotConnect` filter applies only when merging inbound `closer_peers`
into the address book). -/
theorem reply_peers_tagged_from_oracle (env : KademliaEnv) (msg : Message)
    (hcp : msg.closer_peers = none) (hpp : msg.provider_peers = none)
    (w : Message)
    (hw : w ∈ (onFindNode env msg).writes ∨ w ∈ (onGetProviders env msg).writes)
    (e : MessagePeer)
    (he : e ∈ optPeers w.closer_peers ∨ e ∈ optPeers w.provider_peers) :
    e.conn_status = env.host.connectedness e.info ∧ e.info.addresses ≠ [] := by
  obtain ⟨mt, mk, mrec, mcp, mpp⟩ := msg
  dsimp only at hcp hpp
  subst hcp
  subst hpp
  rcases hw with hw | hw
  · by_cases hkey : mk = []
    · simp [onFindNode, hkey] at hw
    · simp only [onFindNode, if_neg hkey] at hw
      by_cases hpe : (collectMsgPeers env.host env.closerPeerCount
          (env.getNearestPeers (env.hash mk) (env.closerPeerCount * 2))
          []).isEmpty
      · simp only [if_pos hpe, List.mem_singleton] at hw
        subst hw
        simp [optPeers] at he
      · simp only [if_neg hpe, List.mem_singleton] at hw
        subst hw
        simp only [optPeers, Option.getD, List.not_mem_nil, or_false] at he
        exact collectMsgPeers_nil_mem env.host env.closerPeerCount _ e he
  · by_cases hkey : mk = []
    · simp [onGetProviders, hkey] at hw
    · simp only [onGetProviders, if_neg hkey] at hw
      by_cases h1 : (env.getProvidersFor mk (env.closerPeerCount * 2)).isEmpty
      · simp only [if_pos h1] at hw
        by_cases h2 : (env.getNearestPeers (env.hash mk)
            (env.closerPeerCount * 2)).isEmpty
        · simp only [if_pos h2, List.mem_singleton] at hw
          subst hw
          simp [optPeers] at he
        · simp only [if_neg h2] at hw
          by_cases h3 : (collectMsgPeers env.host env.closerPeerCount
              (env.getNearestPeers (env.hash mk) (env.closerPeerCount * 2))
              []).isEmpty
          · simp only [if_pos h3, List.mem_singleton] at hw
            subst hw
            simp [optPeers] at he
          · simp only [if_neg h3, List.mem_singleton] at hw
            subst hw
            simp only [optPeers, Option.getD, List.not_mem_nil, or_false] at he
            exact collectMsgPeers_nil_mem env.host env.closerPeerCount _ e he
      · simp only [if_neg h1] at hw
        by_cases h4 : (collectMsgPeers env.host env.closerPeerCount
            (env.getProvidersFor mk (env.closerPeerCount * 2)) []).isEmpty
        · simp only [if_pos h4] at hw
          by_cases h2 : (env.getNearestPeers (env.hash mk)
              (env.closerPeerCount * 2)).isEmpty
          · simp only [if_pos h2, List.mem_singleton] at hw
            subst hw
            simp [optPeers] at he
          · simp only [if_neg h2] at hw
            by_cases h3 : (collectMsgPeers env.host env.closerPeerCount
                (env.getNearestPeers (env.hash mk) (env.closerPeerCount * 2))
                []).isEmpty
            · simp only [if_pos h3, List.mem_singleton] at hw
              subst hw
              simp [optPeers] at he
            · simp only [if_neg h3, List.mem_singleton] at hw
              subst hw
              simp only [optPeers, Option.getD, List.not_mem_nil,
                or_false] at he
              exact collectMsgPeers_nil_mem env.host env.closerPeerCount _ e he
        · simp only [if_neg h4] at hw
          by_cases h2 : (env.getNearestPeers (env.hash mk)
              (env.closerPeerCount * 2)).isEmpty
          · simp only [if_pos h2, List.mem_singleton] at hw
            subst hw
            simp only [optPeers, Option.getD, List.not_mem_nil,
              false_or] at he
            exact collectMsgPeers_nil_mem env.host env.closerPeerCount _ e he
          · simp only [if_neg h2] at hw
            by_cases h3 : (collectMsgPeers env.host env.closerPeerCount
                (env.getNearestPeers (env.hash mk) (env.closerPeerCount * 2))
                []).isEmpty
            · simp only [if_pos h3, List.mem_singleton] at hw
              subst hw
              simp only [optPeers, Option.getD, List.not_mem_nil,
                false_or] at he
              exact collectMsgPeers_nil_mem env.host env.closerPeerCount _ e he
            · simp only [if_neg h3, List.mem_singleton] at hw
              subst hw
              simp only [optPeers, Option.getD] at he
              rcases he with he | he
              · exact collectMsgPeers_nil_mem env.host env.closerPeerCount _ e he
              · exact collectMsgPeers_nil_mem env.host env.closerPeerCount _ e he

/-- Host oracle of the C1 witness: every peer has an address and is
`CONNECTED`. -/
def hostC1w : Host := ⟨fun p => ⟨p, [2]⟩, fun _ => Connectedness.CONNECTED⟩

/-- Environment of the C1 witness. -/
def envC1w : KademliaEnv := ⟨hostC1w, fun k => k, fun _ _ => [4], fun _ _ => [], 1⟩

/-- Inbound FindNode request of the C1 witness. -/
def msgC1w : Message := { type := MessageType.kFindNode, key := [3] }

/-- Reply written for the C1 witness request. -/
def replyC1w : Message :=
  { type := MessageType.kFindNode, key := [3],
    closer_peers := some [⟨⟨4, [2]⟩, Connectedness.CONNECTED⟩] }

/-- Witness for C1 (amended) at a concrete request. -/
theorem reply_peers_tagged_from_oracle_witness :
    (⟨⟨4, [2]⟩, Connectedness.CONNECTED⟩ : MessagePeer).conn_status =
        envC1w.host.connectedness
          (⟨⟨4, [2]⟩, Connectedness.CONNECTED⟩ : MessagePeer).info ∧
      (⟨⟨4, [2]⟩, Connectedness.CONNECTED⟩ : MessagePeer).info.addresses ≠
        [] :=
  reply_peers_tagged_from_oracle envC1w msgC1w rfl rfl replyC1w
    (Or.inl (by decide)) ⟨⟨4, [2]⟩, Connectedness.CONNECTED⟩
    (Or.inl (by decide))

/-- Host oracle of the C1 counterexample: every peer has an address yet is
reported `CAN_NOT_CONNECT`. -/
def hostC1 : Host :=
  ⟨fun p => ⟨p, [1]⟩, fun _ => Connectedness.CAN_NOT_CONNECT⟩

/-- Environment of the C1 counterexample: the routing table nearest-peer
query yields peer 7. -/
def envC1 : KademliaEnv := ⟨hostC1, fun k => k, fun _ _ => [7], fun _ _ => [], 1⟩

/-- Inbound FindNode request of the C1 counterexample. -/
def msgC1 : Message := { type := MessageType.kFindNode, key := [0] }

/-- Reply actually written for the C1 counterexample request: it contains
peer 7 tagged `CAN_NOT_CONNECT`. -/
def replyC1 : Message :=
  { type := MessageType.kFindNode, key := [0],
    closer_peers := some [⟨⟨7, [1]⟩, Connectedness.CAN_NOT_CONNECT⟩] }

/-- Counterexample to claim C1 as stated: the FindNode reply includes a
peer whose connectedness (per the host's oracle at reply time) is
`CAN_NOT_CONNECT`; such peers are not excluded from reply lists. -/
theorem onFindNode_reply_keeps_cannot_connect :
    onFindNode envC1 msgC1 = ⟨[], [replyC1]⟩ ∧
      (optPeers replyC1.closer_peers).map MessagePeer.conn_status =
        [Connectedness.CAN_NOT_CONNECT] := by
  decide

/-- The delays of the first `n` random-walk invocations are
`randomWalkDelay` of the successive counter values `0, 1, …, n-1`. -/
theorem runWalks_spec (cfg : RandomWalkConfig) :
    ∀ n : Nat, runWalks cfg n =
      (n, (List.range n).map (randomWalkDelay cfg)) := by
  intro n
  induction n with
  | zero => rfl
  | succ m ih => simp [runWalks, ih, randomWalkStep, List.range_succ]

/-- Claim C4, amended: numbering invocations from zero (the value of the
zero-initialized iteration counter read by the post-increment), invocation
`i` schedules the long period-end delay
`interval - delay * queries_per_period` exactly when `queries_per_period`
divides `i`, and the short `delay` otherwise; so the very first walk is
followed by the long sleep, and thereafter walks come in groups of
`queries_per_period` spaced by `delay`, each group ending with the long
sleep. -/
theorem runWalks_delay_spec (cfg : RandomWalkConfig) (n i : Nat)
    (h : i < n) :
    (runWalks cfg n).2.getD i 0 =
      if i % cfg.queries_per_period = 0 then
        cfg.interval - cfg.delay * (cfg.queries_per_period : Int)
      else cfg.delay := by
  rw [runWalks_spec]
  have hlen : i < ((List.range n).map (randomWalkDelay cfg)).length := by
    simpa using h
  rw [List.getD_eq_getElem _ _ hlen]
  simp [randomWalkDelay]

/-- Random-walk configuration of the C4 theorems: interval 100, delay 1,
two queries per period. -/
def cfgW : RandomWalkConfig := ⟨100, 1, 2⟩

/-- Witness for C4 (amended) at a concrete invocation. -/
theorem runWalks_delay_spec_witness :
    (runWalks cfgW 3).2.getD 1 0 =
      if 1 % cfgW.queries_per_period = 0 then
        cfgW.interval - cfgW.delay * (cfgW.queries_per_period : Int)
      else cfgW.delay :=
  runWalks_delay_spec cfgW 3 1 (by decide)

/-- Counterexample to claim C4 as stated: with interval 100, delay 1 and
queries_per_period 2, the delays the code schedules on the first two
invocations are `[98, 1]`, while the claimed cadence (short delays except
at every `queries_per_period`-th invocation) predicts `[1, 98]`: already
the first invocation gets the long period-end sleep. -/
theorem randomWalk_first_delay_mismatch :
    (runWalks cfgW 2).2 = [98, 1] ∧
      (List.range 2).map (fun i => claimedWalkDelay cfgW (i + 1)) =
        [1, 98] := by
  decide

/-- Claim C2, amended: findProviders completes from local providers alone
exactly when the content routing table returned a nonempty list, the limit
is positive, the list is strictly longer than the limit, and after dropping
providers without addresses or with connectedness `CannotConnect` (keeping
the first `limit` survivors) at least `limit` remain; in particular, when
exactly `limit` usable providers are known locally a network lookup is
still started. -/
theorem findProviders_localOnly_iff (env : KademliaEnv) (key : Key)
    (limit : Nat) (r : List PeerInfo) :
    findProviders env key limit = FindProvidersOutcome.localOnly r ↔
      env.getProvidersFor key limit ≠ [] ∧
        0 < limit ∧ limit < (env.getProvidersFor key limit).length ∧
        r = collectProviderInfos env.host limit
              (env.getProvidersFor key limit) [] ∧
        limit ≤ r.length := by
  by_cases h1 : (env.getProvidersFor key limit).isEmpty
  · simp only [findProviders, if_pos h1]
    constructor
    · intro h
      exact FindProvidersOutcome.noConfusion h
    · rintro ⟨hne, -⟩
      exact absurd (List.isEmpty_iff.mp h1) hne
  · simp only [findProviders, if_neg h1]
    by_cases h2 : 0 < limit ∧ limit < (env.getProvidersFor key limit).length
    · simp only [if_pos h2]
      by_cases h3 : limit ≤ (collectProviderInfos env.host limit
          (env.getProvidersFor key limit) []).length
      · simp only [if_pos h3]
        constructor
        · intro h
          injection h with hr
          subst hr
          exact ⟨by simpa [List.isEmpty_iff] using h1, h2.1, h2.2, rfl, h3⟩
        · rintro ⟨-, -, -, hr, -⟩
          rw [hr]
      · simp only [if_neg h3]
        constructor
        · intro h
          exact FindProvidersOutcome.noConfusion h
        · rintro ⟨-, -, -, hr, hlen⟩
          exact absurd (hr ▸ hlen) h3
    · simp only [if_neg h2]
      constructor
      · intro h
        exact FindProvidersOutcome.noConfusion h
      · rintro ⟨-, hpos, hlt, -, -⟩
        exact absurd ⟨hpos, hlt⟩ h2

/-- Host oracle of the C2 counterexample: every peer has an address and is
`CONNECTED`. -/
def hostC2 : Host := ⟨fun p => ⟨p, [1]⟩, fun _ => Connectedness.CONNECTED⟩

/-- Environment of the C2 counterexample: the content routing table knows
exactly one provider (peer 5) for every key. -/
def envC2 : KademliaEnv := ⟨hostC2, fun k => k, fun _ _ => [], fun _ _ => [5], 20⟩

/-- Counterexample to claim C2 as stated: with limit 1 and exactly one
locally known provider that survives the filter (addresses present,
connectedness `CONNECTED`), findProviders still starts a network lookup:
the local-only path demands strictly more than `limit` local providers. -/
theorem findProviders_at_limit_starts_lookup :
    findProviders envC2 [0] 1 = FindProvidersOutcome.lookup ∧
      (collectProviderInfos envC2.host 1 (envC2.getProvidersFor [0] 1)
          []).length = 1 := by
  decide

end Kademlia
